import Mathlib

/-!
Verification of the core numeric functions of `questionmarkconjugation.py`.

The Python source works with machine floats; all the arithmetic it performs on
the inputs considered here is dyadic-rational, so we embed the computations
over the exact rationals `ℚ`.  Python binary strings become `List Char` over
the characters '0' and '1'.  The prefix dictionaries (Python `dict`, which
iterates in insertion order) become association lists
`List (List Char × List Char)` scanned in order.  A Python function that can
fall off the end of its body (returning `None`) or raise `ZeroDivisionError`
is embedded with an `Option` result.
-/

/-- Value of one binary digit character, as in Python `int(string[0])`.
`to_float` is only ever applied to strings over '0' and '1' (outputs of
`to_bin` and the dictionary entries); on any other character Python's
`int` would raise, which no claim exercises. -/
def digit (c : Char) : ℚ :=
  if c = '1' then 1 else 0

/-- `to_bin(x, n)` from the source: the first `n` binary digits of `x`
after the binary point, by repeated doubling.  The branch test is the
source's `x >= 1/2`. -/
def to_bin : ℚ → ℕ → List Char
  | _, 0 => []
  | x, n + 1 => if 1/2 ≤ x then '1' :: to_bin (2*x - 1) n else '0' :: to_bin (2*x) n

/-- `to_float(string)` from the source: `to_float('') = 0`,
`to_float(c :: rest) = (int(c) + to_float(rest)) / 2`. -/
def to_float : List Char → ℚ
  | [] => 0
  | c :: rest => (digit c + to_float rest) / 2

/-- `question(x, n)` from the source, totalised over `ℚ` (Lean's `1/0 = 0`
convention never matters on the guarded branches; the `questionE` variant
below models the divisions with explicit zero checks).  The Python guard
`if x == 0 or n == 0: return x` becomes the `n = 0` equation together with
the `x = 0` test. -/
def question : ℚ → ℕ → ℚ
  | x, 0 => x
  | x, n + 1 =>
    if x = 0 then x
    else if 1/2 ≤ x then (question (2 - 1/x) n + 1) / 2
    else question (1/(1 - x) - 1) n / 2

/-- `invquestion(x, n)` from the source, totalised over `ℚ`. -/
def invquestion : ℚ → ℕ → ℚ
  | x, 0 => x
  | x, n + 1 =>
    if x = 0 then x
    else if 1/2 ≤ x then 1 / (2 - invquestion (2*x - 1) n)
    else invquestion (2*x) n / (1 + invquestion (2*x) n)

/-- `question` with every division that appears in the source (`1/x` and
`1/(1 - x)`) modelled as a checked division: a zero denominator takes the
error branch (`none`), mirroring Python's `ZeroDivisionError`. -/
def questionE : ℚ → ℕ → Option ℚ
  | x, 0 => some x
  | x, n + 1 =>
    if x = 0 then some x
    else if 1/2 ≤ x then
      if x = 0 then none
      else (questionE (2 - 1/x) n).map (fun y => (y + 1) / 2)
    else
      if 1 - x = 0 then none
      else (questionE (1/(1 - x) - 1) n).map (fun y => y / 2)

/-- `invquestion` with the divisions `1/(2 - y)` and `y/(1 + y)` modelled as
checked divisions: a zero denominator takes the error branch (`none`). -/
def invquestionE : ℚ → ℕ → Option ℚ
  | x, 0 => some x
  | x, n + 1 =>
    if x = 0 then some x
    else if 1/2 ≤ x then
      (invquestionE (2*x - 1) n).bind
        (fun y => if 2 - y = 0 then none else some (1 / (2 - y)))
    else
      (invquestionE (2*x) n).bind
        (fun y => if 1 + y = 0 then none else some (y / (1 + y)))

/-- `max(len(s) for s in sigma)` from the source.  Python's `max` requires a
nonempty dictionary (it raises `ValueError` on an empty one); on nonempty
`sigma` the fold below computes the same maximum since lengths are `≥ 0`. -/
def maxLen (sigma : List (List Char × List Char)) : ℕ :=
  (sigma.map fun r => r.1.length).foldr max 0

/-- The `for string_0 in sigma` loop in the source's `f`: scan the rules in
order; on the first rule whose source string equals the corresponding initial
segment of `string` (`string[:len(string_0)] == string_0`), return
`to_float(sigma[string_0]) + y * 2**(-len(sigma[string_0]))` with
`y = (x - to_float(string_0)) * 2**len(string_0)`; falling off the end of the
loop returns `None`. -/
def treemapScan (s : List Char) (x : ℚ) : List (List Char × List Char) → Option ℚ
  | [] => none
  | (a, b) :: rest =>
    if s.take a.length = a then
      some (to_float b + ((x - to_float a) * 2 ^ a.length) * (2 : ℚ) ^ (-(b.length : ℤ)))
    else treemapScan s x rest

/-- `treemap(sigma)` applied to `x`: compute `string = to_bin(x, n)` with
`n = max(len(s) for s in sigma)` and scan the rules in order. -/
def treemap (sigma : List (List Char × List Char)) (x : ℚ) : Option ℚ :=
  treemapScan (to_bin x (maxLen sigma)) x sigma

/-- Modelled from the spec's words (for the refinement claim C1): select, by
`find?`, the first rule whose source `a` is a prefix of
`s = to_bin(x, maxLen)`, and return
`to_float(sigma(a)) + (x - to_float(a)) * 2^(len(a) - len(sigma(a)))`. -/
def treemapSpec (sigma : List (List Char × List Char)) (x : ℚ) : Option ℚ :=
  (sigma.find? fun r => r.1.isPrefixOf (to_bin x (maxLen sigma))).map
    (fun r => to_float r.2 + (x - to_float r.1) * (2 : ℚ) ^ ((r.1.length : ℤ) - (r.2.length : ℤ)))

/-- Dictionary for element 'a' of the Thompson group (`sigma1` in the
source, `{'00': '0', '01': '10', '1': '11'}`, in insertion order). -/
def sigma1 : List (List Char × List Char) :=
  [(['0','0'], ['0']), (['0','1'], ['1','0']), (['1'], ['1','1'])]

/-- Dictionary for element 'b' of the Thompson group (`sigma2` in the
source, `{'000': '00', '001': '010', '01': '011', '1': '1'}`). -/
def sigma2 : List (List Char × List Char) :=
  [(['0','0','0'], ['0','0']), (['0','0','1'], ['0','1','0']),
   (['0','1'], ['0','1','1']), (['1'], ['1'])]

/-- Closed form of `treemap sigma1` (derived below, used for monotonicity). -/
def tree1val (x : ℚ) : ℚ :=
  if x < 1/4 then 2*x else if x < 1/2 then x + 1/4 else x/2 + 1/2

/-- Closed form of `treemap sigma2` (derived below, used for monotonicity). -/
def tree2val (x : ℚ) : ℚ :=
  if x < 1/8 then 2*x
  else if x < 1/4 then x + 1/8
  else if x < 1/2 then x/2 + 1/4
  else x

-- ## Unfolding lemmas

lemma digit_zero : digit '0' = 0 := by decide

lemma digit_one : digit '1' = 1 := by decide

lemma to_bin_zero_eq (x : ℚ) : to_bin x 0 = [] := rfl

lemma to_bin_succ_eq (x : ℚ) (n : ℕ) :
    to_bin x (n + 1) =
      if 1/2 ≤ x then '1' :: to_bin (2*x - 1) n else '0' :: to_bin (2*x) n := rfl

lemma to_float_nil_eq : to_float [] = 0 := rfl

lemma to_float_cons_eq (c : Char) (rest : List Char) :
    to_float (c :: rest) = (digit c + to_float rest) / 2 := rfl

lemma question_zero_eq (x : ℚ) : question x 0 = x := rfl

lemma question_succ_eq (x : ℚ) (n : ℕ) :
    question x (n + 1) =
      if x = 0 then x
      else if 1/2 ≤ x then (question (2 - 1/x) n + 1) / 2
      else question (1/(1 - x) - 1) n / 2 := rfl

lemma invquestion_zero_eq (x : ℚ) : invquestion x 0 = x := rfl

lemma invquestion_succ_eq (x : ℚ) (n : ℕ) :
    invquestion x (n + 1) =
      if x = 0 then x
      else if 1/2 ≤ x then 1 / (2 - invquestion (2*x - 1) n)
      else invquestion (2*x) n / (1 + invquestion (2*x) n) := rfl

lemma questionE_zero_eq (x : ℚ) : questionE x 0 = some x := rfl

lemma questionE_succ_eq (x : ℚ) (n : ℕ) :
    questionE x (n + 1) =
      if x = 0 then some x
      else if 1/2 ≤ x then
        if x = 0 then none
        else (questionE (2 - 1/x) n).map (fun y => (y + 1) / 2)
      else
        if 1 - x = 0 then none
        else (questionE (1/(1 - x) - 1) n).map (fun y => y / 2) := rfl

lemma invquestionE_zero_eq (x : ℚ) : invquestionE x 0 = some x := rfl

lemma invquestionE_succ_eq (x : ℚ) (n : ℕ) :
    invquestionE x (n + 1) =
      if x = 0 then some x
      else if 1/2 ≤ x then
        (invquestionE (2*x - 1) n).bind
          (fun y => if 2 - y = 0 then none else some (1 / (2 - y)))
      else
        (invquestionE (2*x) n).bind
          (fun y => if 1 + y = 0 then none else some (y / (1 + y))) := rfl

lemma treemapScan_nil_eq (s : List Char) (x : ℚ) : treemapScan s x [] = none := rfl

lemma treemapScan_cons_eq (s : List Char) (x : ℚ) (a b : List Char)
    (rest : List (List Char × List Char)) :
    treemapScan s x ((a, b) :: rest) =
      if s.take a.length = a then
        some (to_float b + ((x - to_float a) * 2 ^ a.length) * (2 : ℚ) ^ (-(b.length : ℤ)))
      else treemapScan s x rest := rfl

-- ## Binary codec lemmas

lemma to_bin_length : ∀ (n : ℕ) (x : ℚ), (to_bin x n).length = n := by
  intro n
  induction n with
  | zero => intro x; rw [to_bin_zero_eq]; rfl
  | succ n ih =>
    intro x
    rw [to_bin_succ_eq]
    by_cases h : 1/2 ≤ x
    · rw [if_pos h, List.length_cons, ih]
    · rw [if_neg h, List.length_cons, ih]

lemma to_bin_digits : ∀ (n : ℕ) (x : ℚ), ∀ c ∈ to_bin x n, c = '0' ∨ c = '1' := by
  intro n
  induction n with
  | zero => intro x c hc; rw [to_bin_zero_eq] at hc; simp at hc
  | succ n ih =>
    intro x c hc
    rw [to_bin_succ_eq] at hc
    by_cases h : 1/2 ≤ x
    · rw [if_pos h] at hc
      rcases List.mem_cons.mp hc with rfl | hc
      · right; rfl
      · exact ih _ c hc
    · rw [if_neg h] at hc
      rcases List.mem_cons.mp hc with rfl | hc
      · left; rfl
      · exact ih _ c hc

lemma to_float_to_bin_bounds :
    ∀ (n : ℕ) (x : ℚ), 0 ≤ x → x ≤ 1 →
      x - (1/2) ^ n ≤ to_float (to_bin x n) ∧ to_float (to_bin x n) ≤ x := by
  intro n
  induction n with
  | zero =>
    intro x h0 h1
    rw [to_bin_zero_eq, to_float_nil_eq, pow_zero]
    constructor <;> linarith
  | succ n ih =>
    intro x h0 h1
    rw [to_bin_succ_eq]
    by_cases h : 1/2 ≤ x
    · have hb := ih (2*x - 1) (by linarith) (by linarith)
      rw [if_pos h, to_float_cons_eq, digit_one, pow_succ]
      constructor <;> [linarith [hb.1]; linarith [hb.2]]
    · have hlt : x < 1/2 := not_le.mp h
      have hb := ih (2*x) (by linarith) (by linarith)
      rw [if_neg h, to_float_cons_eq, digit_zero, pow_succ]
      constructor <;> [linarith [hb.1]; linarith [hb.2]]

-- ## Bounds on the recursive arguments of `question`

lemma question_arg_hi (x : ℚ) (h2 : 1/2 ≤ x) (h1 : x ≤ 1) :
    0 ≤ 2 - 1/x ∧ 2 - 1/x ≤ 1 := by
  have hx : 0 < x := by linarith
  have ha : 1 ≤ 1/x := by
    rw [le_div_iff₀ hx]; linarith
  have hb : 1/x ≤ 2 := by
    rw [div_le_iff₀ hx]; linarith
  constructor <;> linarith

lemma question_arg_lo (x : ℚ) (h0 : 0 ≤ x) (h2 : x < 1/2) :
    0 ≤ 1/(1 - x) - 1 ∧ 1/(1 - x) - 1 ≤ 1 := by
  have hx : 0 < 1 - x := by linarith
  have ha : 1 ≤ 1/(1 - x) := by
    rw [le_div_iff₀ hx]; linarith
  have hb : 1/(1 - x) ≤ 2 := by
    rw [div_le_iff₀ hx]; linarith
  constructor <;> linarith

-- ## Range preservation

lemma question_bounds :
    ∀ (n : ℕ) (x : ℚ), 0 ≤ x → x ≤ 1 → 0 ≤ question x n ∧ question x n ≤ 1 := by
  intro n
  induction n with
  | zero => intro x h0 h1; rw [question_zero_eq]; exact ⟨h0, h1⟩
  | succ n ih =>
    intro x h0 h1
    rw [question_succ_eq]
    by_cases hx0 : x = 0
    · rw [if_pos hx0]; exact ⟨h0, h1⟩
    rw [if_neg hx0]
    by_cases h2 : 1/2 ≤ x
    · rw [if_pos h2]
      obtain ⟨ha, hb⟩ := question_arg_hi x h2 h1
      obtain ⟨hc, hd⟩ := ih (2 - 1/x) ha hb
      constructor <;> linarith
    · rw [if_neg h2]
      obtain ⟨ha, hb⟩ := question_arg_lo x h0 (not_le.mp h2)
      obtain ⟨hc, hd⟩ := ih (1/(1 - x) - 1) ha hb
      constructor <;> linarith

lemma invquestion_bounds :
    ∀ (n : ℕ) (x : ℚ), 0 ≤ x → x ≤ 1 → 0 ≤ invquestion x n ∧ invquestion x n ≤ 1 := by
  intro n
  induction n with
  | zero => intro x h0 h1; rw [invquestion_zero_eq]; exact ⟨h0, h1⟩
  | succ n ih =>
    intro x h0 h1
    rw [invquestion_succ_eq]
    by_cases hx0 : x = 0
    · rw [if_pos hx0]; exact ⟨h0, h1⟩
    rw [if_neg hx0]
    by_cases h2 : 1/2 ≤ x
    · rw [if_pos h2]
      obtain ⟨hc, hd⟩ := ih (2*x - 1) (by linarith) (by linarith)
      have hden : 0 < 2 - invquestion (2*x - 1) n := by linarith
      constructor
      · positivity
      · rw [div_le_one hden]; linarith
    · rw [if_neg h2]
      have hlt : x < 1/2 := not_le.mp h2
      obtain ⟨hc, hd⟩ := ih (2*x) (by linarith) (by linarith)
      have hden : 0 < 1 + invquestion (2*x) n := by linarith
      constructor
      · positivity
      · rw [div_le_one hden]; linarith

-- ## Endpoints

lemma question_at_zero (n : ℕ) : question 0 n = 0 := by
  cases n with
  | zero => rfl
  | succ n => rw [question_succ_eq, if_pos rfl]

lemma question_at_one : ∀ n : ℕ, question 1 n = 1 := by
  intro n
  induction n with
  | zero => rfl
  | succ n ih =>
    rw [question_succ_eq, if_neg (by norm_num), if_pos (by norm_num)]
    norm_num [ih]

lemma invquestion_at_zero (n : ℕ) : invquestion 0 n = 0 := by
  cases n with
  | zero => rfl
  | succ n => rw [invquestion_succ_eq, if_pos rfl]

lemma invquestion_at_one : ∀ n : ℕ, invquestion 1 n = 1 := by
  intro n
  induction n with
  | zero => rfl
  | succ n ih =>
    rw [invquestion_succ_eq, if_neg (by norm_num), if_pos (by norm_num)]
    norm_num [ih]

lemma question_at_half (n : ℕ) : question (1/2) n = 1/2 := by
  cases n with
  | zero => rfl
  | succ n =>
    rw [question_succ_eq, if_neg (by norm_num), if_pos (by norm_num)]
    norm_num [question_at_zero]

-- ## Symmetry of `question`

lemma question_symm :
    ∀ (n : ℕ) (x : ℚ), 0 ≤ x → x ≤ 1 → question (1 - x) n = 1 - question x n := by
  intro n
  induction n with
  | zero => intro x h0 h1; rw [question_zero_eq, question_zero_eq]
  | succ n ih =>
    -- the statement for the left half of the interval, from the IH
    have key : ∀ x : ℚ, 0 < x → x < 1/2 →
        question (1 - x) (n + 1) = 1 - question x (n + 1) := by
      intro x hx0 hx2
      have hne : x ≠ 0 := ne_of_gt hx0
      have hx1 : x ≤ 1 := by linarith
      have h1xne : (1 : ℚ) - x ≠ 0 := by intro h; nlinarith
      have h1xge : 1/2 ≤ 1 - x := by linarith
      obtain ⟨hu0, hu1⟩ := question_arg_lo x (le_of_lt hx0) hx2
      have harg : 2 - 1/(1 - x) = 1 - (1/(1 - x) - 1) := by ring
      rw [question_succ_eq, if_neg h1xne, if_pos h1xge, harg,
        ih (1/(1 - x) - 1) hu0 hu1,
        question_succ_eq, if_neg hne, if_neg (not_le.mpr hx2)]
      ring
    intro x h0 h1
    rcases eq_or_lt_of_le h0 with h0e | h0l
    · -- x = 0
      rw [← h0e, sub_zero, question_at_one, question_at_zero]
      norm_num
    rcases eq_or_lt_of_le h1 with h1e | h1l
    · -- x = 1
      rw [h1e, sub_self, question_at_zero, question_at_one]
      norm_num
    rcases lt_trichotomy x (1/2) with hlt | heq | hgt
    · exact key x h0l hlt
    · rw [heq]
      norm_num [question_at_half]
    · have := key (1 - x) (by linarith) (by linarith)
      rw [sub_sub_cancel] at this
      linarith [this]

-- ## Successive depths of `question` are close

lemma question_step_close :
    ∀ (n : ℕ) (x : ℚ), 0 ≤ x → x ≤ 1 →
      |question x n - question x (n + 1)| ≤ (1/2) ^ n := by
  intro n
  induction n with
  | zero =>
    intro x h0 h1
    obtain ⟨ha, hb⟩ := question_bounds 1 x h0 h1
    rw [question_zero_eq, pow_zero, abs_le]
    constructor <;> linarith
  | succ n ih =>
    intro x h0 h1
    by_cases hx0 : x = 0
    · rw [hx0, question_at_zero, question_at_zero, sub_self, abs_zero]
      positivity
    by_cases h2 : 1/2 ≤ x
    · obtain ⟨ha, hb⟩ := question_arg_hi x h2 h1
      have hc := ih (2 - 1/x) ha hb
      rw [question_succ_eq, if_neg hx0, if_pos h2,
        show n + 1 + 1 = (n + 1) + 1 from rfl,
        question_succ_eq x (n + 1), if_neg hx0, if_pos h2]
      have heq : (question (2 - 1/x) n + 1) / 2 - (question (2 - 1/x) (n + 1) + 1) / 2
          = (question (2 - 1/x) n - question (2 - 1/x) (n + 1)) / 2 := by ring
      rw [heq, abs_div, abs_two, pow_succ]
      linarith [hc]
    · have hlt : x < 1/2 := not_le.mp h2
      have hx0' : 0 < x := lt_of_le_of_ne h0 (Ne.symm hx0)
      obtain ⟨ha, hb⟩ := question_arg_lo x h0 hlt
      have hc := ih (1/(1 - x) - 1) ha hb
      rw [question_succ_eq, if_neg hx0, if_neg h2,
        show n + 1 + 1 = (n + 1) + 1 from rfl,
        question_succ_eq x (n + 1), if_neg hx0, if_neg h2]
      have heq : question (1/(1 - x) - 1) n / 2 - question (1/(1 - x) - 1) (n + 1) / 2
          = (question (1/(1 - x) - 1) n - question (1/(1 - x) - 1) (n + 1)) / 2 := by ring
      rw [heq, abs_div, abs_two, pow_succ]
      linarith [hc]

-- ## The functional recurrence, one step exactly

lemma question_contract (x : ℚ) (h0 : 0 < x) (h1 : x < 1) (n : ℕ) :
    question (x/(1 + x)) (n + 1) = question x n / 2 := by
  have hden : (0 : ℚ) < 1 + x := by linarith
  have hne : x/(1 + x) ≠ 0 := by positivity
  have hlt : x/(1 + x) < 1/2 := by
    rw [div_lt_iff₀ hden]; linarith
  have harg : 1/(1 - x/(1 + x)) - 1 = x := by
    have h1 : 1 - x/(1 + x) = 1/(1 + x) := by field_simp
    rw [h1, one_div_one_div]; ring
  rw [question_succ_eq, if_neg hne, if_neg (not_le.mpr hlt), harg]

-- ## The checked-division variants never take the error branch on [0, 1]

lemma questionE_eq_some :
    ∀ (n : ℕ) (x : ℚ), 0 ≤ x → x ≤ 1 → questionE x n = some (question x n) := by
  intro n
  induction n with
  | zero => intro x h0 h1; rw [questionE_zero_eq, question_zero_eq]
  | succ n ih =>
    intro x h0 h1
    by_cases hx0 : x = 0
    · rw [questionE_succ_eq, question_succ_eq, if_pos hx0, if_pos hx0]
    by_cases h2 : 1/2 ≤ x
    · obtain ⟨ha, hb⟩ := question_arg_hi x h2 h1
      have lhs : questionE x (n + 1)
          = (questionE (2 - 1/x) n).map (fun y => (y + 1) / 2) := by
        rw [questionE_succ_eq, if_neg hx0, if_pos h2, if_neg hx0]
      have rhs : question x (n + 1) = (question (2 - 1/x) n + 1) / 2 := by
        rw [question_succ_eq, if_neg hx0, if_pos h2]
      rw [lhs, rhs, ih (2 - 1/x) ha hb]
      rfl
    · have hlt : x < 1/2 := not_le.mp h2
      have hne : (1 : ℚ) - x ≠ 0 := by intro h; nlinarith
      obtain ⟨ha, hb⟩ := question_arg_lo x h0 hlt
      have lhs : questionE x (n + 1)
          = (questionE (1/(1 - x) - 1) n).map (fun y => y / 2) := by
        rw [questionE_succ_eq, if_neg hx0, if_neg h2, if_neg hne]
      have rhs : question x (n + 1) = question (1/(1 - x) - 1) n / 2 := by
        rw [question_succ_eq, if_neg hx0, if_neg h2]
      rw [lhs, rhs, ih (1/(1 - x) - 1) ha hb]
      rfl

lemma invquestionE_eq_some :
    ∀ (n : ℕ) (x : ℚ), 0 ≤ x → x ≤ 1 → invquestionE x n = some (invquestion x n) := by
  intro n
  induction n with
  | zero => intro x h0 h1; rw [invquestionE_zero_eq, invquestion_zero_eq]
  | succ n ih =>
    intro x h0 h1
    by_cases hx0 : x = 0
    · rw [invquestionE_succ_eq, invquestion_succ_eq, if_pos hx0, if_pos hx0]
    by_cases h2 : 1/2 ≤ x
    · obtain ⟨ha, hb⟩ := invquestion_bounds n (2*x - 1) (by linarith) (by linarith)
      have hne : 2 - invquestion (2*x - 1) n ≠ 0 := by intro h; nlinarith
      have lhs : invquestionE x (n + 1)
          = (invquestionE (2*x - 1) n).bind
              (fun y => if 2 - y = 0 then none else some (1 / (2 - y))) := by
        rw [invquestionE_succ_eq, if_neg hx0, if_pos h2]
      have rhs : invquestion x (n + 1) = 1 / (2 - invquestion (2*x - 1) n) := by
        rw [invquestion_succ_eq, if_neg hx0, if_pos h2]
      rw [lhs, rhs, ih (2*x - 1) (by linarith) (by linarith)]
      show (if 2 - invquestion (2*x - 1) n = 0 then none
          else some (1 / (2 - invquestion (2*x - 1) n)))
        = some (1 / (2 - invquestion (2*x - 1) n))
      rw [if_neg hne]
    · have hlt : x < 1/2 := not_le.mp h2
      obtain ⟨ha, hb⟩ := invquestion_bounds n (2*x) (by linarith) (by linarith)
      have hne : 1 + invquestion (2*x) n ≠ 0 := by intro h; nlinarith
      have lhs : invquestionE x (n + 1)
          = (invquestionE (2*x) n).bind
              (fun y => if 1 + y = 0 then none else some (y / (1 + y))) := by
        rw [invquestionE_succ_eq, if_neg hx0, if_neg h2]
      have rhs : invquestion x (n + 1)
          = invquestion (2*x) n / (1 + invquestion (2*x) n) := by
        rw [invquestion_succ_eq, if_neg hx0, if_neg h2]
      rw [lhs, rhs, ih (2*x) (by linarith) (by linarith)]
      show (if 1 + invquestion (2*x) n = 0 then none
          else some (invquestion (2*x) n / (1 + invquestion (2*x) n)))
        = some (invquestion (2*x) n / (1 + invquestion (2*x) n))
      rw [if_neg hne]

-- ## Prefix matching: the source's slice test versus the boolean test

lemma isPrefixOf_iff_take :
    ∀ (a s : List Char), a.isPrefixOf s = true ↔ s.take a.length = a := by
  intro a
  induction a with
  | nil => intro s; simp [List.isPrefixOf]
  | cons c cs ih =>
    intro s
    cases s with
    | nil => simp [List.isPrefixOf]
    | cons d ds =>
      show (c == d && cs.isPrefixOf ds) = true ↔ (d :: ds).take (cs.length + 1) = c :: cs
      rw [List.take_succ_cons, Bool.and_eq_true, beq_iff_eq, List.cons.injEq, ih]
      constructor
      · rintro ⟨rfl, h⟩; exact ⟨rfl, h⟩
      · rintro ⟨rfl, h⟩; exact ⟨rfl, h⟩

lemma two_zpow_neg (k : ℕ) : (2 : ℚ) ^ (-(k : ℤ)) = ((2 : ℚ) ^ k)⁻¹ := by
  rw [zpow_neg, zpow_natCast]

lemma two_pow_mul_zpow_neg (k m : ℕ) :
    ((2 : ℚ) ^ k) * (2 : ℚ) ^ (-(m : ℤ)) = (2 : ℚ) ^ ((k : ℤ) - (m : ℤ)) := by
  rw [sub_eq_add_neg, zpow_add₀ (by norm_num : (2 : ℚ) ≠ 0), zpow_natCast]

lemma treemapScan_eq_find (s : List Char) (x : ℚ) :
    ∀ sigma : List (List Char × List Char),
      treemapScan s x sigma =
        (sigma.find? fun r => r.1.isPrefixOf s).map
          (fun r => to_float r.2 +
            (x - to_float r.1) * (2 : ℚ) ^ ((r.1.length : ℤ) - (r.2.length : ℤ))) := by
  intro sigma
  induction sigma with
  | nil => rfl
  | cons r rest ih =>
    obtain ⟨a, b⟩ := r
    by_cases h : s.take a.length = a
    · rw [treemapScan_cons_eq, if_pos h,
        List.find?_cons_of_pos (p := fun r => r.1.isPrefixOf s) rest
          ((isPrefixOf_iff_take a s).mpr h)]
      show some (to_float b + ((x - to_float a) * 2 ^ a.length) * (2 : ℚ) ^ (-(b.length : ℤ)))
        = some (to_float b + (x - to_float a) * (2 : ℚ) ^ ((a.length : ℤ) - (b.length : ℤ)))
      rw [mul_assoc, two_pow_mul_zpow_neg]
    · rw [treemapScan_cons_eq, if_neg h,
        List.find?_cons_of_neg (p := fun r => r.1.isPrefixOf s) rest
          (fun hc => h ((isPrefixOf_iff_take a s).mp hc)), ih]

lemma treemap_eq_treemapSpec (sigma : List (List Char × List Char)) (x : ℚ) :
    treemap sigma x = treemapSpec sigma x := by
  rw [treemap, treemapSpec, treemapScan_eq_find]

lemma treemap_no_match (sigma : List (List Char × List Char)) (x : ℚ)
    (h : ∀ r ∈ sigma, ¬ r.1.isPrefixOf (to_bin x (maxLen sigma)) = true) :
    treemap sigma x = none := by
  rw [treemap, treemapScan_eq_find, List.find?_eq_none.mpr h]
  rfl

-- ## Concrete evaluation of the two example tree maps

lemma sigma1_eq :
    sigma1 = [(['0','0'], ['0']), (['0','1'], ['1','0']), (['1'], ['1','1'])] := rfl

lemma sigma2_eq :
    sigma2 = [(['0','0','0'], ['0','0']), (['0','0','1'], ['0','1','0']),
      (['0','1'], ['0','1','1']), (['1'], ['1'])] := rfl

lemma tree1val_eq (x : ℚ) :
    tree1val x = if x < 1/4 then 2*x else if x < 1/2 then x + 1/4 else x/2 + 1/2 := rfl

lemma tree2val_eq (x : ℚ) :
    tree2val x =
      if x < 1/8 then 2*x
      else if x < 1/4 then x + 1/8
      else if x < 1/2 then x/2 + 1/4
      else x := rfl

lemma treemapScan_value (a b : List Char) (x : ℚ) :
    to_float b + ((x - to_float a) * 2 ^ a.length) * (2 : ℚ) ^ (-(b.length : ℤ))
      = to_float b + (x - to_float a) * 2 ^ a.length / 2 ^ b.length := by
  rw [two_zpow_neg, div_eq_mul_inv]

lemma to_float_s0 : to_float ['0'] = 0 := by
  norm_num [to_float_cons_eq, to_float_nil_eq, digit_zero]

lemma to_float_s1 : to_float ['1'] = 1/2 := by
  norm_num [to_float_cons_eq, to_float_nil_eq, digit_one]

lemma to_float_s00 : to_float ['0','0'] = 0 := by
  norm_num [to_float_cons_eq, to_float_nil_eq, digit_zero]

lemma to_float_s01 : to_float ['0','1'] = 1/4 := by
  norm_num [to_float_cons_eq, to_float_nil_eq, digit_zero, digit_one]

lemma to_float_s10 : to_float ['1','0'] = 1/2 := by
  norm_num [to_float_cons_eq, to_float_nil_eq, digit_zero, digit_one]

lemma to_float_s11 : to_float ['1','1'] = 3/4 := by
  norm_num [to_float_cons_eq, to_float_nil_eq, digit_one]

lemma to_float_s000 : to_float ['0','0','0'] = 0 := by
  norm_num [to_float_cons_eq, to_float_nil_eq, digit_zero]

lemma to_float_s001 : to_float ['0','0','1'] = 1/8 := by
  norm_num [to_float_cons_eq, to_float_nil_eq, digit_zero, digit_one]

lemma to_float_s010 : to_float ['0','1','0'] = 1/4 := by
  norm_num [to_float_cons_eq, to_float_nil_eq, digit_zero, digit_one]

lemma to_float_s011 : to_float ['0','1','1'] = 3/8 := by
  norm_num [to_float_cons_eq, to_float_nil_eq, digit_zero, digit_one]

lemma treemap_sigma1_eq (x : ℚ) : treemap sigma1 x = some (tree1val x) := by
  show treemapScan (to_bin x (maxLen sigma1)) x sigma1 = some (tree1val x)
  rw [show maxLen sigma1 = 2 from rfl]
  rcases lt_or_le x (1/2) with h1 | h1
  · have hb1 : to_bin x 2 = '0' :: to_bin (2*x) 1 := by
      rw [to_bin_succ_eq, if_neg (not_le.mpr h1)]
    rcases lt_or_le x (1/4) with h2 | h2
    · have hb2 : to_bin (2*x) 1 = ['0'] := by
        rw [to_bin_succ_eq, if_neg (not_le.mpr (by linarith : 2*x < 1/2)), to_bin_zero_eq]
      rw [hb1, hb2, sigma1_eq, treemapScan_cons_eq, if_pos (by decide),
        tree1val_eq, if_pos h2, treemapScan_value, to_float_s0, to_float_s00]
      norm_num
      ring
    · have hb2 : to_bin (2*x) 1 = ['1'] := by
        rw [to_bin_succ_eq, if_pos (by linarith : 1/2 ≤ 2*x), to_bin_zero_eq]
      rw [hb1, hb2, sigma1_eq, treemapScan_cons_eq, if_neg (by decide),
        treemapScan_cons_eq, if_pos (by decide),
        tree1val_eq, if_neg (not_lt.mpr h2), if_pos h1,
        treemapScan_value, to_float_s10, to_float_s01]
      norm_num
      ring
  · have hb1 : to_bin x 2 = '1' :: to_bin (2*x - 1) 1 := by
      rw [to_bin_succ_eq, if_pos h1]
    have hval : ∀ c : Char, treemapScan ('1' :: [c]) x sigma1 = some (x/2 + 1/2) := by
      intro c
      rw [sigma1_eq, treemapScan_cons_eq, if_neg (by simp),
        treemapScan_cons_eq, if_neg (by simp),
        treemapScan_cons_eq, if_pos (by simp),
        treemapScan_value, to_float_s11, to_float_s1]
      norm_num
      ring
    rcases lt_or_le x (3/4) with h2 | h2
    · have hb2 : to_bin (2*x - 1) 1 = ['0'] := by
        rw [to_bin_succ_eq, if_neg (not_le.mpr (by linarith : 2*x - 1 < 1/2)), to_bin_zero_eq]
      rw [hb1, hb2, hval '0', tree1val_eq,
        if_neg (not_lt.mpr (by linarith : 1/4 ≤ x)), if_neg (not_lt.mpr h1)]
    · have hb2 : to_bin (2*x - 1) 1 = ['1'] := by
        rw [to_bin_succ_eq, if_pos (by linarith : 1/2 ≤ 2*x - 1), to_bin_zero_eq]
      rw [hb1, hb2, hval '1', tree1val_eq,
        if_neg (not_lt.mpr (by linarith : 1/4 ≤ x)), if_neg (not_lt.mpr h1)]

lemma treemap_sigma2_eq (x : ℚ) : treemap sigma2 x = some (tree2val x) := by
  show treemapScan (to_bin x (maxLen sigma2)) x sigma2 = some (tree2val x)
  rw [show maxLen sigma2 = 3 from rfl]
  rcases lt_or_le x (1/2) with h1 | h1
  · have hb1 : to_bin x 3 = '0' :: to_bin (2*x) 2 := by
      rw [to_bin_succ_eq, if_neg (not_le.mpr h1)]
    rcases lt_or_le x (1/4) with h2 | h2
    · have hb2 : to_bin (2*x) 2 = '0' :: to_bin (2*(2*x)) 1 := by
        rw [to_bin_succ_eq, if_neg (not_le.mpr (by linarith : 2*x < 1/2))]
      rcases lt_or_le x (1/8) with h3 | h3
      · have hb3 : to_bin (2*(2*x)) 1 = ['0'] := by
          rw [to_bin_succ_eq, if_neg (not_le.mpr (by linarith : 2*(2*x) < 1/2)),
            to_bin_zero_eq]
        rw [hb1, hb2, hb3, sigma2_eq, treemapScan_cons_eq, if_pos (by decide),
          tree2val_eq, if_pos h3, treemapScan_value, to_float_s00, to_float_s000]
        norm_num
        ring
      · have hb3 : to_bin (2*(2*x)) 1 = ['1'] := by
          rw [to_bin_succ_eq, if_pos (by linarith : 1/2 ≤ 2*(2*x)), to_bin_zero_eq]
        rw [hb1, hb2, hb3, sigma2_eq, treemapScan_cons_eq, if_neg (by decide),
          treemapScan_cons_eq, if_pos (by decide),
          tree2val_eq, if_neg (not_lt.mpr h3), if_pos h2,
          treemapScan_value, to_float_s010, to_float_s001]
        norm_num
        ring
    · have hb2 : to_bin (2*x) 2 = '1' :: to_bin (2*(2*x) - 1) 1 := by
        rw [to_bin_succ_eq, if_pos (by linarith : 1/2 ≤ 2*x)]
      rw [hb1, hb2, sigma2_eq, treemapScan_cons_eq, if_neg (by simp),
        treemapScan_cons_eq, if_neg (by simp),
        treemapScan_cons_eq, if_pos (by simp),
        tree2val_eq, if_neg (not_lt.mpr (by linarith : 1/8 ≤ x)),
        if_neg (not_lt.mpr h2), if_pos h1,
        treemapScan_value, to_float_s011, to_float_s01]
      norm_num
      ring
  · have hb1 : to_bin x 3 = '1' :: to_bin (2*x - 1) 2 := by
      rw [to_bin_succ_eq, if_pos h1]
    rw [hb1, sigma2_eq, treemapScan_cons_eq, if_neg (by simp),
      treemapScan_cons_eq, if_neg (by simp),
      treemapScan_cons_eq, if_neg (by simp),
      treemapScan_cons_eq, if_pos (by simp),
      tree2val_eq, if_neg (not_lt.mpr (by linarith : 1/8 ≤ x)),
      if_neg (not_lt.mpr (by linarith : 1/4 ≤ x)), if_neg (not_lt.mpr h1),
      treemapScan_value, to_float_s1]
    norm_num

-- ## Monotonicity of the closed forms

lemma tree1val_mono (x1 x2 : ℚ) (h : x1 ≤ x2) : tree1val x1 ≤ tree1val x2 := by
  rw [tree1val_eq, tree1val_eq]
  split_ifs <;> linarith

lemma tree2val_mono (x1 x2 : ℚ) (h : x1 ≤ x2) : tree2val x1 ≤ tree2val x2 := by
  rw [tree2val_eq, tree2val_eq]
  split_ifs <;> linarith

-- ## The claims

/-- Claim C1: for every (nonempty, as Python's `max` requires) prefix
dictionary `sigma` and every `x` in `[0,1]`, `treemap sigma` applied to `x`
computes `s = to_bin x maxLen` with `maxLen` the maximum source-prefix
length, selects the first rule `(a, sigma a)` in the dictionary's order with
`a` a prefix of `s`, and returns
`to_float (sigma a) + (x - to_float a) * 2 ^ (len a - len (sigma a))`,
i.e. it agrees with the spec-worded `treemapSpec`. -/
theorem treemap_matches_spec_C1 (sigma : List (List Char × List Char)) (x : ℚ)
    (_hs : sigma ≠ []) (_h0 : 0 ≤ x) (_h1 : x ≤ 1) :
    treemap sigma x = treemapSpec sigma x :=
  treemap_eq_treemapSpec sigma x

theorem treemap_matches_spec_C1_witness :
    sigma1 ≠ [] ∧ (0 : ℚ) ≤ 1/3 ∧ (1/3 : ℚ) ≤ 1 ∧
      treemap sigma1 (1/3) = treemapSpec sigma1 (1/3) :=
  ⟨by rw [sigma1_eq]; exact List.cons_ne_nil _ _, by norm_num, by norm_num,
    treemap_matches_spec_C1 sigma1 (1/3)
      (by rw [sigma1_eq]; exact List.cons_ne_nil _ _) (by norm_num) (by norm_num)⟩

/-- Claim C2: for every depth `n ≥ 0` and every `x` in `[0,1]`,
`to_float (to_bin x n)` lies in `[x - 2⁻ⁿ, x]`: decoding the encoding never
overshoots `x` and undershoots by at most `2⁻ⁿ`. -/
theorem encode_decode_bounds_C2 (n : ℕ) (x : ℚ) (h0 : 0 ≤ x) (h1 : x ≤ 1) :
    x - (1/2) ^ n ≤ to_float (to_bin x n) ∧ to_float (to_bin x n) ≤ x :=
  to_float_to_bin_bounds n x h0 h1

theorem encode_decode_bounds_C2_witness :
    (0 : ℚ) ≤ 1/3 ∧ (1/3 : ℚ) ≤ 1 ∧
      ((1 : ℚ)/3 - (1/2) ^ 2 ≤ to_float (to_bin (1/3) 2) ∧
        to_float (to_bin (1/3) 2) ≤ 1/3) :=
  ⟨by norm_num, by norm_num, encode_decode_bounds_C2 2 (1/3) (by norm_num) (by norm_num)⟩

/-- Claim C3: for every `x` in `[0,1]` and every `n ≥ 0`, both `question x n`
and `invquestion x n` lie in `[0,1]`: the core transforms preserve the unit
interval. -/
theorem unit_interval_preserved_C3 (x : ℚ) (n : ℕ) (h0 : 0 ≤ x) (h1 : x ≤ 1) :
    (0 ≤ question x n ∧ question x n ≤ 1) ∧
      (0 ≤ invquestion x n ∧ invquestion x n ≤ 1) :=
  ⟨question_bounds n x h0 h1, invquestion_bounds n x h0 h1⟩

theorem unit_interval_preserved_C3_witness :
    (0 : ℚ) ≤ 1/3 ∧ (1/3 : ℚ) ≤ 1 ∧
      ((0 ≤ question (1/3) 3 ∧ question (1/3) 3 ≤ 1) ∧
        (0 ≤ invquestion (1/3) 3 ∧ invquestion (1/3) 3 ≤ 1)) :=
  ⟨by norm_num, by norm_num, unit_interval_preserved_C3 (1/3) 3 (by norm_num) (by norm_num)⟩

/-- Claim C4: for every `x` in `[0,1]` and every `n ≥ 0`, evaluating
`question` and `invquestion` raises no error: with every division of the
source modelled as a checked division (`questionE`, `invquestionE`), the
error branch is unreachable and the result is `some` of the total value. -/
theorem no_division_error_C4 (x : ℚ) (n : ℕ) (h0 : 0 ≤ x) (h1 : x ≤ 1) :
    questionE x n = some (question x n) ∧
      invquestionE x n = some (invquestion x n) :=
  ⟨questionE_eq_some n x h0 h1, invquestionE_eq_some n x h0 h1⟩

theorem no_division_error_C4_witness :
    (0 : ℚ) ≤ 1/3 ∧ (1/3 : ℚ) ≤ 1 ∧
      (questionE (1/3) 3 = some (question (1/3) 3) ∧
        invquestionE (1/3) 3 = some (invquestion (1/3) 3)) :=
  ⟨by norm_num, by norm_num, no_division_error_C4 (1/3) 3 (by norm_num) (by norm_num)⟩

/-- Claim C5: for every `n ≥ 0`, `question 0 n = 0`, `question 1 n = 1`,
`invquestion 0 n = 0` and `invquestion 1 n = 1`: both transforms fix the
endpoints of `[0,1]` at every recursion depth. -/
theorem endpoints_fixed_C5 (n : ℕ) :
    question 0 n = 0 ∧ question 1 n = 1 ∧
      invquestion 0 n = 0 ∧ invquestion 1 n = 1 :=
  ⟨question_at_zero n, question_at_one n, invquestion_at_zero n, invquestion_at_one n⟩

/-- Claim C6: for every `x` in `[0,1]` and every `n ≥ 0`, the symmetry
recurrence holds exactly in exact arithmetic:
`question (1 - x) n = 1 - question x n`. -/
theorem question_symmetry_C6 (x : ℚ) (n : ℕ) (h0 : 0 ≤ x) (h1 : x ≤ 1) :
    question (1 - x) n = 1 - question x n :=
  question_symm n x h0 h1

theorem question_symmetry_C6_witness :
    (0 : ℚ) ≤ 1/3 ∧ (1/3 : ℚ) ≤ 1 ∧
      question (1 - 1/3) 2 = 1 - question (1/3) 2 :=
  ⟨by norm_num, by norm_num, question_symmetry_C6 (1/3) 2 (by norm_num) (by norm_num)⟩

/-- Claim C7: for every `x` in `(0,1)` and every `n ≥ 1`,
`question (x/(1+x)) n` differs from `question x n / 2` by at most
`2^-(n-1)` (in fact the difference is exactly
`(question x (n-1) - question x n)/2`, bounded by `2⁻ⁿ`). -/
theorem question_recurrence_C7 (x : ℚ) (n : ℕ)
    (hx0 : 0 < x) (hx1 : x < 1) (hn : 1 ≤ n) :
    |question (x/(1 + x)) n - question x n / 2| ≤ (1/2) ^ (n - 1) := by
  obtain ⟨m, rfl⟩ : ∃ m, n = m + 1 := ⟨n - 1, (Nat.succ_pred_eq_of_pos hn).symm⟩
  rw [question_contract x hx0 hx1 m]
  have hstep := question_step_close m x (le_of_lt hx0) (le_of_lt hx1)
  have heq : question x m / 2 - question x (m + 1) / 2
      = (question x m - question x (m + 1)) / 2 := by ring
  have hpos : (0 : ℚ) ≤ (1/2) ^ m := by positivity
  rw [heq, abs_div, abs_two, Nat.add_sub_cancel]
  linarith

theorem question_recurrence_C7_witness :
    (0 : ℚ) < 1/2 ∧ (1/2 : ℚ) < 1 ∧ 1 ≤ 1 ∧
      |question ((1/2)/(1 + 1/2)) 1 - question (1/2) 1 / 2| ≤ (1/2 : ℚ) ^ (1 - 1) :=
  ⟨by norm_num, by norm_num, le_refl 1,
    question_recurrence_C7 (1/2) 1 (by norm_num) (by norm_num) (le_refl 1)⟩

/-- Claim C8: for the two example dictionaries `sigma1` and `sigma2` (both
lexicographic-order-preserving), the built tree maps are non-decreasing on
`[0,1]`: if `x1 ≤ x2` then the (defined) values satisfy `f x1 ≤ f x2`. -/
theorem treemap_monotone_C8 (x1 x2 : ℚ) (_h0 : 0 ≤ x1) (h12 : x1 ≤ x2) (_h1 : x2 ≤ 1) :
    ∃ y1 y2 z1 z2 : ℚ,
      treemap sigma1 x1 = some y1 ∧ treemap sigma1 x2 = some y2 ∧ y1 ≤ y2 ∧
        treemap sigma2 x1 = some z1 ∧ treemap sigma2 x2 = some z2 ∧ z1 ≤ z2 :=
  ⟨tree1val x1, tree1val x2, tree2val x1, tree2val x2,
    treemap_sigma1_eq x1, treemap_sigma1_eq x2, tree1val_mono x1 x2 h12,
    treemap_sigma2_eq x1, treemap_sigma2_eq x2, tree2val_mono x1 x2 h12⟩

theorem treemap_monotone_C8_witness :
    (0 : ℚ) ≤ 0 ∧ (0 : ℚ) ≤ 1 ∧ (1 : ℚ) ≤ 1 ∧
      ∃ y1 y2 z1 z2 : ℚ,
        treemap sigma1 0 = some y1 ∧ treemap sigma1 1 = some y2 ∧ y1 ≤ y2 ∧
          treemap sigma2 0 = some z1 ∧ treemap sigma2 1 = some z2 ∧ z1 ≤ z2 :=
  ⟨le_refl 0, by norm_num, le_refl 1,
    treemap_monotone_C8 0 1 (le_refl 0) (by norm_num) (le_refl 1)⟩

/-- Claim C9: for every (nonempty, as Python's `max` requires) prefix
dictionary `sigma` and every `x`, if no source prefix of `sigma` is a prefix
of `to_bin x maxLen`, the tree map produces no defined result for `x`: it
returns `none` (the Python function falls off the loop and returns `None`)
rather than raising a runtime fault. -/
theorem treemap_no_rule_none_C9 (sigma : List (List Char × List Char)) (x : ℚ)
    (_hs : sigma ≠ [])
    (h : ∀ r ∈ sigma, ¬ r.1.isPrefixOf (to_bin x (maxLen sigma)) = true) :
    treemap sigma x = none :=
  treemap_no_match sigma x h

lemma to_bin_half_two : to_bin (1/2) 2 = ['1', '0'] := by
  rw [to_bin_succ_eq, if_pos (le_refl ((1:ℚ)/2)),
    show 2 * ((1:ℚ)/2) - 1 = 0 from by norm_num,
    to_bin_succ_eq, if_neg (by norm_num : ¬ (1:ℚ)/2 ≤ 0), to_bin_zero_eq]

lemma no_rule_witness_hyp :
    ∀ r ∈ ([(['0','0'], ['0'])] : List (List Char × List Char)),
      ¬ r.1.isPrefixOf (to_bin (1/2) (maxLen [(['0','0'], ['0'])])) = true := by
  intro r hr
  rw [List.mem_singleton] at hr
  subst hr
  rw [show maxLen [(['0','0'], ['0'])] = 2 from rfl, to_bin_half_two]
  decide

theorem treemap_no_rule_none_C9_witness :
    ([(['0','0'], ['0'])] : List (List Char × List Char)) ≠ [] ∧
      (∀ r ∈ ([(['0','0'], ['0'])] : List (List Char × List Char)),
        ¬ r.1.isPrefixOf (to_bin (1/2) (maxLen [(['0','0'], ['0'])])) = true) ∧
      treemap [(['0','0'], ['0'])] (1/2) = none :=
  ⟨List.cons_ne_nil _ _, no_rule_witness_hyp,
    treemap_no_rule_none_C9 [(['0','0'], ['0'])] (1/2)
      (List.cons_ne_nil _ _) no_rule_witness_hyp⟩

/-- Claim C10: for every rational `x` (also outside `[0,1]`) and every
`n ≥ 0`, `to_bin x n` is a string of exactly `n` characters, each `'0'` or
`'1'`; consequently the string matched inside a tree map always has length
exactly `maxLen`. -/
theorem to_bin_wellformed_C10 (x : ℚ) (n : ℕ) :
    (to_bin x n).length = n ∧ (∀ c ∈ to_bin x n, c = '0' ∨ c = '1') ∧
      ∀ sigma : List (List Char × List Char),
        (to_bin x (maxLen sigma)).length = maxLen sigma :=
  ⟨to_bin_length n x, to_bin_digits n x, fun sigma => to_bin_length (maxLen sigma) x⟩
